import Mathlib

/-!
Verification of the fractal task-visualization core (FractalNode /
FractalAlgorithm) of the focusar roadmapper repository.

The JavaScript source is shallowly embedded as follows:
- numbers are modelled by `ℚ` (the source's arithmetic on scores, weights,
  colors and strengths is exact decimal arithmetic, e.g. `0.2`, `0.5`);
- the trigonometric functions `Math.cos` / `Math.sin` and the constant
  `Math.PI` used by the 3-D layout are modelled by an abstract interface
  `Trig R` over an arbitrary linear ordered field `R`; the layout theorems
  are proved for every interpretation of that interface, in particular for
  the real one;
- a JavaScript object field that may be absent (`undefined`) is an `Option`;
  truthiness tests (`if (task.description)`, `status || 'Not Started'`)
  are modelled by matching on the `Option` and, for strings, on emptiness;
- mutation of `FractalNode` objects (`child.position = ...`, `push`) is
  modelled by state passing: each mutating method becomes a function
  returning the updated node; the mutable `FractalAlgorithm` instance state
  (`this.root`, configured constants) is the structure `Alg`;
- `Date.now() + Math.random()` / `new Date().toISOString()` used by
  `_createSubtask` for fresh ids and timestamps are modelled by an
  environment `Gen` supplying the k-th fresh id and timestamp.
-/

set_option autoImplicit false
set_option linter.unusedSectionVars false
set_option maxRecDepth 8000

namespace Roadmap

/-- A task as the core reads it: `id`, `title`, optional `description`,
optional `status`, optional `parentId`, optional nested `subtasks`, optional
`dependencies`, `complexity` (read unconditionally by `_createSubtask`), and
`created`. -/
inductive Task where
  | mk (id : String) (title : String) (description : Option String)
      (status : Option String) (parentId : Option String)
      (subtasks : Option (List Task)) (dependencies : Option (List String))
      (complexity : ℚ) (created : String)

def Task.id : Task → String
  | .mk i _ _ _ _ _ _ _ _ => i

def Task.title : Task → String
  | .mk _ ti _ _ _ _ _ _ _ => ti

def Task.description : Task → Option String
  | .mk _ _ de _ _ _ _ _ _ => de

def Task.status : Task → Option String
  | .mk _ _ _ st _ _ _ _ _ => st

def Task.parentId : Task → Option String
  | .mk _ _ _ _ pa _ _ _ _ => pa

def Task.subtasks : Task → Option (List Task)
  | .mk _ _ _ _ _ su _ _ _ => su

def Task.dependencies : Task → Option (List String)
  | .mk _ _ _ _ _ _ dep _ _ => dep

def Task.complexity : Task → ℚ
  | .mk _ _ _ _ _ _ _ cx _ => cx

def Task.created : Task → String
  | .mk _ _ _ _ _ _ _ _ cr => cr

@[simp] theorem Task.id_mk (i ti : String) (de st pa : Option String)
    (su : Option (List Task)) (dep : Option (List String)) (cx : ℚ) (cr : String) :
    Task.id (Task.mk i ti de st pa su dep cx cr) = i := rfl

@[simp] theorem Task.title_mk (i ti : String) (de st pa : Option String)
    (su : Option (List Task)) (dep : Option (List String)) (cx : ℚ) (cr : String) :
    Task.title (Task.mk i ti de st pa su dep cx cr) = ti := rfl

@[simp] theorem Task.description_mk (i ti : String) (de st pa : Option String)
    (su : Option (List Task)) (dep : Option (List String)) (cx : ℚ) (cr : String) :
    Task.description (Task.mk i ti de st pa su dep cx cr) = de := rfl

@[simp] theorem Task.status_mk (i ti : String) (de st pa : Option String)
    (su : Option (List Task)) (dep : Option (List String)) (cx : ℚ) (cr : String) :
    Task.status (Task.mk i ti de st pa su dep cx cr) = st := rfl

@[simp] theorem Task.subtasks_mk (i ti : String) (de st pa : Option String)
    (su : Option (List Task)) (dep : Option (List String)) (cx : ℚ) (cr : String) :
    Task.subtasks (Task.mk i ti de st pa su dep cx cr) = su := rfl

@[simp] theorem Task.complexity_mk (i ti : String) (de st pa : Option String)
    (su : Option (List Task)) (dep : Option (List String)) (cx : ℚ) (cr : String) :
    Task.complexity (Task.mk i ti de st pa su dep cx cr) = cx := rfl

/-! ### String helpers mirroring the JavaScript string operations -/

/-- One step of JavaScript `String.prototype.split` on a character-class
regex such as `/\s+/` or `/[.!?]+/`: the string is cut at every maximal run
of characters satisfying `p`, keeping empty pieces at the ends (so
`" a ".split(/\s+/)` has three pieces). `acc` holds the current piece,
reversed. -/
def jsSplitRun (p : Char → Bool) (acc : List Char) : List Char → List (List Char)
  | [] => [acc.reverse]
  | c :: cs =>
    if p c then acc.reverse :: jsSplitRun p [] (cs.dropWhile p)
    else jsSplitRun p (c :: acc) cs
termination_by l => l.length
decreasing_by
  · exact Nat.lt_succ_of_le (List.dropWhile_sublist p).length_le
  · exact Nat.lt_succ_self _

/-- JavaScript `text.split(regex)` for a character-class-run regex. -/
def jsSplit (p : Char → Bool) (s : String) : List (List Char) :=
  jsSplitRun p [] s.data

/-- The sentence separators of the regex `/[.!?]+/`. -/
def isSentenceSep (c : Char) : Bool := c == '.' || c == '!' || c == '?'

/-- A regex word character (`\w`), as used by the `\b` boundaries. -/
def isWordChar (c : Char) : Bool := c.isAlphanum || c == '_'

/-- Case-insensitive prefix test: `kw` (given in lower case) is a prefix of
`s` when each character of `s` lowered matches. -/
def hasPrefixLower : List Char → List Char → Bool
  | [], _ => true
  | _ :: _, [] => false
  | k :: ks, c :: cs => (c.toLower == k) && hasPrefixLower ks cs

/-- Plain (case-sensitive) prefix test on character lists. -/
def prefixAt : List Char → List Char → Bool
  | [], _ => true
  | _ :: _, [] => false
  | k :: ks, c :: cs => (k == c) && prefixAt ks cs

/-- JavaScript `hay.includes(needle)`: `needle` occurs as a contiguous
substring of `hay`. -/
def containsList (needle : List Char) : List Char → Bool
  | [] => needle.isEmpty
  | c :: cs => prefixAt needle (c :: cs) || containsList needle cs

/-- JavaScript `hay.includes(needle)` on strings. -/
def strIncludes (hay needle : String) : Bool := containsList needle.data hay.data

/-- JavaScript `s.toLowerCase()` (character-wise). -/
def lowerStr (s : String) : String := String.mk (s.data.map Char.toLower)

/-- JavaScript `s.trim()`: whitespace stripped from both ends. -/
def jsTrim (l : List Char) : List Char :=
  ((l.dropWhile Char.isWhitespace).reverse.dropWhile Char.isWhitespace).reverse

/-- The technical keywords of `_analyzeTextComplexity`'s regex
`/\b(implement|develop|create|integrate|optimize|refactor|test)\b/gi`. -/
def techKeywords : List (List Char) :=
  ["implement".data, "develop".data, "create".data, "integrate".data,
   "optimize".data, "refactor".data, "test".data]

/-- Attempt the regex alternation at the current position: the first keyword
that is a case-insensitive prefix of `s` and is followed by a non-word
character or the end (the trailing `\b`). Returns the matched length. The
alternatives are tried in source order; on a failed trailing boundary the
next alternative is tried, as a backtracking regex engine does. -/
def kwAt : List (List Char) → List Char → Option Nat
  | [], _ => none
  | k :: ks, s =>
    if hasPrefixLower k s then
      match s.drop k.length with
      | [] => some k.length
      | c :: _ => if isWordChar c then kwAt ks s else some k.length
    else kwAt ks s

/-- Number of matches of the technical-keyword regex (global flag: the scan
resumes after each match, so matches do not overlap). `prevWord` tracks
whether the previous character was a word character — the leading `\b`.
Every keyword has positive length, so `cs.drop (len - 1)` is the input just
past the match. -/
def countTechAux (prevWord : Bool) : List Char → Nat
  | [] => 0
  | c :: cs =>
    if prevWord then countTechAux (isWordChar c) cs
    else
      match kwAt techKeywords (c :: cs) with
      | some len => 1 + countTechAux true (cs.drop (len - 1))
      | none => countTechAux (isWordChar c) cs
termination_by l => l.length
decreasing_by
  all_goals simp only [List.length_cons, List.length_drop]
  all_goals omega

/-! ### FractalNode.calculateComplexity and FractalAlgorithm complexity analysis -/

/-- `FractalNode.calculateComplexity(task)`:
`score = 1`; `+ min(5, description.length / 100)` when the description is
present and non-empty (truthy); `+ subtasks.length` when the subtasks field
is present; result `min(10, score)`. -/
def calculateComplexity (t : Task) : ℚ :=
  match t with
  | .mk _ _ de _ _ subs _ _ _ =>
    let descScore : ℚ :=
      match de with
      | some d => if d.isEmpty then 0 else min 5 ((d.length : ℚ) / 100)
      | none => 0
    let subsScore : ℚ :=
      match subs with
      | some l => (l.length : ℚ)
      | none => 0
    min 10 (1 + descScore + subsScore)

/-- `FractalAlgorithm._analyzeTextComplexity(text)`:
`min(5, words/50 + sentences/5 + technicalTerms.length * 0.5)` with
`words = text.split(/\s+/).length`, `sentences = text.split(/[.!?]+/).length`
and the technical terms counted by the keyword regex. -/
def analyzeTextComplexity (text : String) : ℚ :=
  let words : ℚ := ((jsSplit Char.isWhitespace text).length : ℚ)
  let sentences : ℚ := ((jsSplit isSentenceSep text).length : ℚ)
  let technicalTerms : ℚ := ((countTechAux false text.data) : ℚ)
  min 5 (words / 50 + sentences / 5 + technicalTerms * 0.5)

mutual

/-- `FractalAlgorithm._analyzeComplexity(task)`:
`score = 1`; `+ _analyzeTextComplexity(description)` when the description is
truthy; `+ subtasks.length + Σ _analyzeComplexity(subtask) * 0.5` when the
subtasks field is present; `+ dependencies.length * 0.5` when the
dependencies field is present; result `min(10, score)`. -/
def analyzeComplexity (t : Task) : ℚ :=
  match t with
  | .mk _ _ de _ _ subs deps _ _ =>
    let descScore : ℚ :=
      match de with
      | some d => if d.isEmpty then 0 else analyzeTextComplexity d
      | none => 0
    let subsScore : ℚ :=
      match subs with
      | some l => (l.length : ℚ) + analyzeSubtasks l
      | none => 0
    let depsScore : ℚ :=
      match deps with
      | some l => (l.length : ℚ) * 0.5
      | none => 0
    min 10 (1 + descScore + subsScore + depsScore)

/-- The `forEach` accumulation `score += _analyzeComplexity(subtask) * 0.5`
over a subtask list. -/
def analyzeSubtasks : List Task → ℚ
  | [] => 0
  | s :: ss => analyzeComplexity s * 0.5 + analyzeSubtasks ss

end

/-! ### DecompositionAdvisor: pattern detection, feature extraction, stubs -/

/-- The lowered description used by `_identifyPatterns`:
`task.description?.toLowerCase() || ''` (an absent description yields the
empty string). -/
def descLower (t : Task) : String := lowerStr ((Task.description t).getD "")

/-- `FractalAlgorithm._identifyPatterns(task)`: case-insensitive substring
scan of the description against the three trigger groups, pushing the tags
`core-components`, `feature-breakdown`, `optimization` in that order. -/
def identifyPatterns (t : Task) : List String :=
  let d := descLower t
  (if strIncludes d "implement" || strIncludes d "develop" || strIncludes d "create"
    then ["core-components"] else []) ++
  (if strIncludes d "feature" || strIncludes d "functionality"
    then ["feature-breakdown"] else []) ++
  (if strIncludes d "improve" || strIncludes d "optimize"
    then ["optimization"] else [])

/-- The feature keywords of `_extractFeatures`'s regex
`/\b(implement|add|create|develop)\s+([^,.!?]+)/i`. -/
def featKeywords : List (List Char) :=
  ["implement".data, "add".data, "create".data, "develop".data]

/-- A character matched by the capture class `[^,.!?]+`. -/
def notFeatSep (c : Char) : Bool := !(c == ',' || c == '.' || c == '!' || c == '?')

/-- The regex alternation plus continuation `\s+([^,.!?]+)` attempted at the
current position: for the first keyword that matches case-insensitively,
`\s+` greedily takes the whitespace run `w` after it and the capture takes
the maximal run of non-`,.!?` characters. When that run is empty the engine
backtracks: `\s+` gives up its last character (possible when `w` has at
least two), which the capture then matches. If the keyword cannot be
completed the next alternative is tried. Returns the capture. -/
def tryFeatKw : List (List Char) → List Char → Option (List Char)
  | [], _ => none
  | k :: ks, s =>
    if hasPrefixLower k s then
      let rest := s.drop k.length
      let w := rest.takeWhile Char.isWhitespace
      let r := rest.drop w.length
      if w.length == 0 then tryFeatKw ks s
      else
        let cap := r.takeWhile notFeatSep
        if cap.isEmpty then
          if 2 ≤ w.length then some (w.drop (w.length - 1))
          else tryFeatKw ks s
        else some cap
    else tryFeatKw ks s

/-- First match of the feature regex in a sentence (`String.prototype.match`
without the global flag): scan left to right; `prevWord` carries the `\b`
boundary state. Returns the second capture group. -/
def findFeature (prevWord : Bool) : List Char → Option (List Char)
  | [] => none
  | c :: cs =>
    if prevWord then findFeature (isWordChar c) cs
    else
      match tryFeatKw featKeywords (c :: cs) with
      | some cap => some cap
      | none => findFeature (isWordChar c) cs

/-- `FractalAlgorithm._extractFeatures(description)`: split into sentences,
collect the trimmed capture of the first feature-regex match of each
sentence, and fall back to `['Core Feature']` when nothing matched. -/
def extractFeatures (description : String) : List String :=
  let sentences := jsSplit isSentenceSep description
  let features := sentences.filterMap
    (fun s => (findFeature false s).map (fun cap => String.mk (jsTrim cap)))
  if features.isEmpty then ["Core Feature"] else features

/-- The sources of nondeterminism of `_createSubtask`: the k-th fresh
identifier (`Date.now() + Math.random()` in the source — the spec treats the
concrete scheme as an implementation detail, not a contract) and the k-th
timestamp (`new Date().toISOString()`). -/
structure Gen where
  newId : Nat → String
  newCreated : Nat → String

/-- `FractalAlgorithm._createSubtask(parentTask, title, complexityFactor)`
for the k-th stub created during a call: a freshly constructed task value
`{id, title, description: "Part of: <parent title>", status: 'Not Started',
parentId: parent.id, complexity: parent.complexity * factor, created}`. -/
def createSubtask (g : Gen) (k : Nat) (parentTask : Task) (title : String)
    (complexityFactor : ℚ) : Task :=
  Task.mk (g.newId k) title (some ("Part of: " ++ Task.title parentTask))
    (some "Not Started") (some (Task.id parentTask)) none none
    (Task.complexity parentTask * complexityFactor) (g.newCreated k)

/-- `Math.max(2, Math.min(5, Math.ceil(complexity / 2)))` — the number of
stubs of the default branch. -/
def defaultCount (complexity : ℚ) : Nat :=
  (max 2 (min 5 (Int.ceil (complexity / 2)))).toNat

/-- `FractalAlgorithm.suggestDecomposition(task)`: the core-components
branch when that pattern was identified; otherwise the feature-breakdown
branch; otherwise `numSubtasks` stubs `Phase 1..N` of equal weight. -/
def suggestDecomposition (g : Gen) (t : Task) : List Task :=
  let complexity := analyzeComplexity t
  let patterns := identifyPatterns t
  if patterns.contains "core-components" then
    [createSubtask g 0 t "Research & Planning" 0.2,
     createSubtask g 1 t "Core Implementation" 0.4,
     createSubtask g 2 t "Testing & Validation" 0.2,
     createSubtask g 3 t "Documentation" 0.2]
  else if patterns.contains "feature-breakdown" then
    let features := extractFeatures ((Task.description t).getD "")
    features.enum.map (fun p => createSubtask g p.1 t p.2 (1 / (features.length : ℚ)))
  else
    let n := defaultCount complexity
    (List.range n).map
      (fun i => createSubtask g i t ("Phase " ++ toString (i + 1)) (1 / (n : ℚ)))

/-! ### FractalNode trees and the 3-D layout -/

/-- The interface of `Math.PI`, `Math.cos`, `Math.sin` over an arbitrary
linear ordered field; every layout statement is proved for every
interpretation, in particular `R = ℝ` with the genuine functions. -/
structure Trig (R : Type) where
  pi : R
  cos : R → R
  sin : R → R

/-- A 3-D position `{x, y, z}`. -/
structure Vec3 (R : Type) where
  x : R
  y : R
  z : R

/-- `FractalNode`: the source task, the depth, the ordered children, the
mutable `position` (initially `{0,0,0}`), `size` (initially `1.0`, never
updated) and the derived `complexity`. -/
inductive FNode (R : Type) where
  | mk (task : Task) (depth : Nat) (children : List (FNode R)) (position : Vec3 R)
      (size : ℚ) (complexity : ℚ)

variable {R : Type} [LinearOrderedField R]

def FNode.task : FNode R → Task
  | .mk t _ _ _ _ _ => t

def FNode.depth : FNode R → Nat
  | .mk _ d _ _ _ _ => d

def FNode.children : FNode R → List (FNode R)
  | .mk _ _ cs _ _ _ => cs

def FNode.position : FNode R → Vec3 R
  | .mk _ _ _ p _ _ => p

def FNode.size : FNode R → ℚ
  | .mk _ _ _ _ sz _ => sz

def FNode.complexity : FNode R → ℚ
  | .mk _ _ _ _ _ cx => cx

@[simp] theorem FNode.task_mk (t : Task) (d : Nat) (cs : List (FNode R))
    (p : Vec3 R) (sz cx : ℚ) : FNode.task (FNode.mk t d cs p sz cx) = t := rfl

@[simp] theorem FNode.depth_mk (t : Task) (d : Nat) (cs : List (FNode R))
    (p : Vec3 R) (sz cx : ℚ) : FNode.depth (FNode.mk t d cs p sz cx) = d := rfl

@[simp] theorem FNode.children_mk (t : Task) (d : Nat) (cs : List (FNode R))
    (p : Vec3 R) (sz cx : ℚ) : FNode.children (FNode.mk t d cs p sz cx) = cs := rfl

@[simp] theorem FNode.position_mk (t : Task) (d : Nat) (cs : List (FNode R))
    (p : Vec3 R) (sz cx : ℚ) : FNode.position (FNode.mk t d cs p sz cx) = p := rfl

@[simp] theorem FNode.size_mk (t : Task) (d : Nat) (cs : List (FNode R))
    (p : Vec3 R) (sz cx : ℚ) : FNode.size (FNode.mk t d cs p sz cx) = sz := rfl

@[simp] theorem FNode.complexity_node_mk (t : Task) (d : Nat) (cs : List (FNode R))
    (p : Vec3 R) (sz cx : ℚ) : FNode.complexity (FNode.mk t d cs p sz cx) = cx := rfl

/-- The `FractalNode(task, depth)` constructor: no children, position
`{0,0,0}`, size `1.0`, complexity from `calculateComplexity`. -/
def mkFNode (t : Task) (depth : Nat) : FNode R :=
  FNode.mk t depth [] (Vec3.mk 0 0 0) 1 (calculateComplexity t)

/-- The ring radius of `updateLayout`: `Math.max(0.5, n * 0.2)` for `n`
children. -/
def ringRadius (n : Nat) : R := max (1 / 2) ((n : R) * (1 / 5))

/-- The angle of child `i` in `updateLayout`: `angleStep * i` with
`angleStep = 2 * Math.PI / n`. -/
def ringAngle (tr : Trig R) (n i : Nat) : R := (2 * tr.pi / (n : R)) * (i : R)

/-- The position `updateLayout` assigns to child `i` of a node at `p` with
`n` children:
`{x: p.x + cos(angle)*radius, y: p.y - 0.5, z: p.z + sin(angle)*radius}`. -/
def childPos (tr : Trig R) (p : Vec3 R) (n i : Nat) : Vec3 R :=
  Vec3.mk (p.x + tr.cos (ringAngle tr n i) * ringRadius n)
    (p.y - 1 / 2)
    (p.z + tr.sin (ringAngle tr n i) * ringRadius n)

mutual

/-- A node re-positioned at `p` with `updateLayout` cascaded below it: the
children are placed on the ring around `p` and each child recursively
relays its own subtree from its fresh position (`child.updateLayout()` runs
after `child.position` was set). -/
def layoutNode (tr : Trig R) (p : Vec3 R) (nd : FNode R) : FNode R :=
  match nd with
  | .mk t d cs _ sz cx => FNode.mk t d (layoutChildren tr p cs.length 0 cs) p sz cx

/-- The `forEach` of `updateLayout`: child `i` (0-based) of a node at `p`
with `n` children is moved to `childPos` and recursively relaid. -/
def layoutChildren (tr : Trig R) (p : Vec3 R) (n i : Nat) : List (FNode R) → List (FNode R)
  | [] => []
  | c :: rest => layoutNode tr (childPos tr p n i) c :: layoutChildren tr p n (i + 1) rest

end

/-- `FractalNode.updateLayout()`: the node itself stays where it is; its
subtree is relaid below it. With no children this recomputes nothing — the
`angleStep` division by zero in the source produces an unused `Infinity`,
not a fault. -/
def updateLayout (tr : Trig R) (nd : FNode R) : FNode R :=
  layoutNode tr (FNode.position nd) nd

/-- The `this.children.push(child)` part of `addChild`. -/
def pushChild : FNode R → FNode R → FNode R
  | .mk t d cs p sz cx, c => FNode.mk t d (cs ++ [c]) p sz cx

/-- `FractalNode.addChild(child)`: push, then `updateLayout`. -/
def addChild (tr : Trig R) (nd c : FNode R) : FNode R :=
  updateLayout tr (pushChild nd c)

mutual

/-- `FractalAlgorithm._buildTree(task, depth)`: a fresh `FractalNode`; when
`depth < maxDepth` and the task has a subtasks field, a child is built per
subtask in source order and attached with `addChild`. -/
def buildTree (tr : Trig R) (md : Nat) (t : Task) (depth : Nat) : FNode R :=
  match t with
  | .mk i ti de st pa subs dep cx cr =>
    let node : FNode R := mkFNode (Task.mk i ti de st pa subs dep cx cr) depth
    if depth < md then
      match subs with
      | some l => buildChildren tr md node (depth + 1) l
      | none => node
    else node

/-- The `forEach` of `_buildTree`: fold `addChild` of the recursively built
children over the accumulated node. -/
def buildChildren (tr : Trig R) (md : Nat) (node : FNode R) (cd : Nat) :
    List Task → FNode R
  | [] => node
  | s :: ss => buildChildren tr md (addChild tr node (buildTree tr md s cd)) cd ss

end

/-- `FractalAlgorithm`'s instance state: the configured constants
(`maxDepth = 5`, `minTaskSize = 0.1`, `spreadFactor = 1.5`) and the stored
root. -/
structure Alg (R : Type) where
  maxDepth : Nat
  minTaskSize : ℚ
  spreadFactor : ℚ
  root : Option (FNode R)

/-- A freshly constructed `FractalAlgorithm`. -/
def Alg.new : Alg R := { maxDepth := 5, minTaskSize := 1 / 10, spreadFactor := 3 / 2, root := none }

/-- The `this.root.position = {x: 0, y: 2, z: 0}` assignment. -/
def setPos : FNode R → Vec3 R → FNode R
  | .mk t d cs _ sz cx, p => FNode.mk t d cs p sz cx

/-- `FractalAlgorithm.createFractalTree(task)`: build from depth 0, anchor
the root at `(0, 2, 0)`, relayout the whole tree, store and return the
root. -/
def createFractalTree (tr : Trig R) (a : Alg R) (t : Task) : Alg R × FNode R :=
  let r := updateLayout tr (setPos (buildTree tr a.maxDepth t 0) (Vec3.mk 0 2 0))
  ({ a with root := some r }, r)

/-! ### Visual properties -/

/-- `FractalAlgorithm._calculateSize(node)`:
`max(minTaskSize, 0.8^depth * (0.5 + complexity / 20))`. -/
def calculateSize (a : Alg R) (nd : FNode R) : ℚ :=
  max a.minTaskSize ((4 / 5 : ℚ) ^ FNode.depth nd * (1 / 2 + FNode.complexity nd / 20))

/-- The `baseColors` table of `_calculateColor`; an unknown key yields
`undefined` (`none`), on which the source faults reading `.r`. -/
def baseColorFor (status : String) : Option (ℚ × ℚ × ℚ) :=
  if status = "Not Started" then some (128, 128, 128)
  else if status = "In Progress" then some (79, 70, 229)
  else if status = "Completed" then some (34, 197, 94)
  else if status = "Blocked" then some (239, 68, 68)
  else none

/-- The `node.task.status || 'Not Started'` lookup key: the fallback fires
exactly on the falsy statuses — an absent status or the empty string. -/
def statusKey (t : Task) : String :=
  match Task.status t with
  | none => "Not Started"
  | some s => if s.isEmpty then "Not Started" else s

/-- Each channel multiplied by the intensity and clamped:
`min(255, channel * intensity)`. -/
def scaleColor (b : ℚ × ℚ × ℚ) (intensity : ℚ) : ℚ × ℚ × ℚ :=
  (min 255 (b.1 * intensity), min 255 (b.2.1 * intensity), min 255 (b.2.2 * intensity))

/-- `FractalAlgorithm._calculateColor(node)`: the palette entry for the
status key scaled by `intensity = 0.5 + complexity / 20`; `none` models the
`TypeError` the source throws on an unknown non-falsy status (the table
lookup yields `undefined`). -/
def calculateColor (nd : FNode R) : Option (ℚ × ℚ × ℚ) :=
  match baseColorFor (statusKey (FNode.task nd)) with
  | none => none
  | some b => some (scaleColor b (1 / 2 + FNode.complexity nd / 20))

/-- `FractalAlgorithm._calculateConnectionStrength(parent, child)`:
`max(0.2, min(1, (1 - child.depth / maxDepth) * (parent.complexity + child.complexity) / 20))`. -/
def calculateConnectionStrength (a : Alg R) (parent child : FNode R) : ℚ :=
  let depthFactor : ℚ := 1 - (FNode.depth child : ℚ) / (a.maxDepth : ℚ)
  let complexityFactor : ℚ := (FNode.complexity parent + FNode.complexity child) / 20
  max (1 / 5) (min 1 (depthFactor * complexityFactor))

/-- A connection `{from, to, strength}`. -/
structure Conn (R : Type) where
  fromPos : Vec3 R
  toPos : Vec3 R
  strength : ℚ

mutual

/-- `FractalAlgorithm._calculateConnections(node)`: per child, the edge from
the node to the child followed by the child's own connections. -/
def calcConns (tr : Trig R) (a : Alg R) (nd : FNode R) : List (Conn R) :=
  match nd with
  | .mk t d cs p sz cx => connsFor tr a (FNode.mk t d cs p sz cx) cs

/-- The `forEach` of `_calculateConnections`. -/
def connsFor (tr : Trig R) (a : Alg R) (parent : FNode R) : List (FNode R) → List (Conn R)
  | [] => []
  | c :: rest =>
    Conn.mk (FNode.position parent) (FNode.position c)
        (calculateConnectionStrength a parent c)
      :: (calcConns tr a c ++ connsFor tr a parent rest)

end

/-! ### Tree inspection helpers (not part of the source: they only quantify
over the trees the source builds) -/

mutual

/-- All nodes of a tree, the root first. -/
def nodes (nd : FNode R) : List (FNode R) :=
  match nd with
  | .mk t d cs p sz cx => FNode.mk t d cs p sz cx :: nodesList cs

/-- All nodes of a forest. -/
def nodesList : List (FNode R) → List (FNode R)
  | [] => []
  | c :: rest => nodes c ++ nodesList rest

end

mutual

/-- The tree with every position replaced by the origin: the part of a node
`updateLayout` can never change. -/
def erasePos (nd : FNode R) : FNode R :=
  match nd with
  | .mk t d cs _ sz cx => FNode.mk t d (eraseList cs) (Vec3.mk 0 0 0) sz cx

/-- `erasePos` over a forest. -/
def eraseList : List (FNode R) → List (FNode R)
  | [] => []
  | c :: rest => erasePos c :: eraseList rest

end

mutual

/-- A task together with all tasks nested below it through `subtasks`. -/
def taskClosure (t : Task) : List Task :=
  match t with
  | .mk i ti de st pa subs dep cx cr =>
    Task.mk i ti de st pa subs dep cx cr ::
      (match subs with
        | some l => closureList l
        | none => [])

/-- `taskClosure` over a task list. -/
def closureList : List Task → List Task
  | [] => []
  | s :: ss => taskClosure s ++ closureList ss

end

mutual

/-- Simultaneous induction over a node and a forest. -/
def recFNode (motive : FNode R → Prop) (motiveL : List (FNode R) → Prop)
    (hmk : ∀ t d cs p sz cx, motiveL cs → motive (FNode.mk t d cs p sz cx))
    (hnil : motiveL [])
    (hcons : ∀ c cs, motive c → motiveL cs → motiveL (c :: cs)) :
    ∀ nd : FNode R, motive nd
  | .mk t d cs p sz cx => hmk t d cs p sz cx (recFList motive motiveL hmk hnil hcons cs)

/-- Forest part of `recFNode`. -/
def recFList (motive : FNode R → Prop) (motiveL : List (FNode R) → Prop)
    (hmk : ∀ t d cs p sz cx, motiveL cs → motive (FNode.mk t d cs p sz cx))
    (hnil : motiveL [])
    (hcons : ∀ c cs, motive c → motiveL cs → motiveL (c :: cs)) :
    ∀ l : List (FNode R), motiveL l
  | [] => hnil
  | c :: cs => hcons c cs (recFNode motive motiveL hmk hnil hcons c)
      (recFList motive motiveL hmk hnil hcons cs)

end

/-! ### Unfolding lemmas for the recursive definitions -/

@[simp] theorem layoutNode_mk (tr : Trig R) (p : Vec3 R) (t : Task) (d : Nat)
    (cs : List (FNode R)) (q : Vec3 R) (sz cx : ℚ) :
    layoutNode tr p (FNode.mk t d cs q sz cx) =
      FNode.mk t d (layoutChildren tr p cs.length 0 cs) p sz cx := by
  rw [layoutNode]

@[simp] theorem layoutChildren_nil (tr : Trig R) (p : Vec3 R) (n i : Nat) :
    layoutChildren tr p n i [] = [] := by
  rw [layoutChildren]

@[simp] theorem layoutChildren_cons (tr : Trig R) (p : Vec3 R) (n i : Nat)
    (c : FNode R) (rest : List (FNode R)) :
    layoutChildren tr p n i (c :: rest) =
      layoutNode tr (childPos tr p n i) c :: layoutChildren tr p n (i + 1) rest := by
  rw [layoutChildren]

@[simp] theorem nodes_mk (t : Task) (d : Nat) (cs : List (FNode R)) (p : Vec3 R)
    (sz cx : ℚ) :
    nodes (FNode.mk t d cs p sz cx) = FNode.mk t d cs p sz cx :: nodesList cs := by
  rw [nodes]

@[simp] theorem nodesList_nil : nodesList ([] : List (FNode R)) = [] := by
  rw [nodesList]

@[simp] theorem nodesList_cons (c : FNode R) (rest : List (FNode R)) :
    nodesList (c :: rest) = nodes c ++ nodesList rest := by
  rw [nodesList]

@[simp] theorem erasePos_mk (t : Task) (d : Nat) (cs : List (FNode R)) (p : Vec3 R)
    (sz cx : ℚ) :
    erasePos (FNode.mk t d cs p sz cx) = FNode.mk t d (eraseList cs) (Vec3.mk 0 0 0) sz cx := by
  rw [erasePos]

@[simp] theorem eraseList_nil : eraseList ([] : List (FNode R)) = [] := by
  rw [eraseList]

@[simp] theorem eraseList_cons (c : FNode R) (rest : List (FNode R)) :
    eraseList (c :: rest) = erasePos c :: eraseList rest := by
  rw [eraseList]

@[simp] theorem buildChildren_nil (tr : Trig R) (md : Nat) (node : FNode R) (cd : Nat) :
    buildChildren tr md node cd [] = node := by
  rw [buildChildren]

@[simp] theorem buildChildren_cons (tr : Trig R) (md : Nat) (node : FNode R) (cd : Nat)
    (s : Task) (ss : List Task) :
    buildChildren tr md node cd (s :: ss) =
      buildChildren tr md (addChild tr node (buildTree tr md s cd)) cd ss := by
  rw [buildChildren]

theorem buildTree_def (tr : Trig R) (md : Nat) (i ti : String) (de st pa : Option String)
    (subs : Option (List Task)) (dep : Option (List String)) (cx : ℚ) (cr : String)
    (depth : Nat) :
    buildTree tr md (Task.mk i ti de st pa subs dep cx cr) depth =
      (if depth < md then
        match subs with
        | some l => buildChildren tr md (mkFNode (Task.mk i ti de st pa subs dep cx cr) depth) (depth + 1) l
        | none => mkFNode (Task.mk i ti de st pa subs dep cx cr) depth
      else mkFNode (Task.mk i ti de st pa subs dep cx cr) depth) := by
  rw [buildTree.eq_def]

@[simp] theorem calcConns_mk (tr : Trig R) (a : Alg R) (t : Task) (d : Nat)
    (cs : List (FNode R)) (p : Vec3 R) (sz cx : ℚ) :
    calcConns tr a (FNode.mk t d cs p sz cx) = connsFor tr a (FNode.mk t d cs p sz cx) cs := by
  rw [calcConns]

@[simp] theorem connsFor_nil (tr : Trig R) (a : Alg R) (parent : FNode R) :
    connsFor tr a parent [] = [] := by
  rw [connsFor]

@[simp] theorem connsFor_cons (tr : Trig R) (a : Alg R) (parent : FNode R)
    (c : FNode R) (rest : List (FNode R)) :
    connsFor tr a parent (c :: rest) =
      Conn.mk (FNode.position parent) (FNode.position c)
          (calculateConnectionStrength a parent c)
        :: (calcConns tr a c ++ connsFor tr a parent rest) := by
  rw [connsFor]

@[simp] theorem closureList_nil : closureList [] = [] := by
  rw [closureList]

@[simp] theorem closureList_cons (s : Task) (ss : List Task) :
    closureList (s :: ss) = taskClosure s ++ closureList ss := by
  rw [closureList]

theorem taskClosure_def (i ti : String) (de st pa : Option String)
    (subs : Option (List Task)) (dep : Option (List String)) (cx : ℚ) (cr : String) :
    taskClosure (Task.mk i ti de st pa subs dep cx cr) =
      Task.mk i ti de st pa subs dep cx cr ::
        (match subs with | some l => closureList l | none => []) := by
  rw [taskClosure.eq_def]

@[simp] theorem analyzeSubtasks_nil : analyzeSubtasks [] = 0 := by
  rw [analyzeSubtasks]

@[simp] theorem analyzeSubtasks_cons (s : Task) (ss : List Task) :
    analyzeSubtasks (s :: ss) = analyzeComplexity s * 0.5 + analyzeSubtasks ss := by
  rw [analyzeSubtasks]

/-! ### Structural lemmas about layout and tree traversal -/

@[simp] theorem erase_depth (nd : FNode R) : FNode.depth (erasePos nd) = FNode.depth nd := by
  cases nd; simp

@[simp] theorem erase_task (nd : FNode R) : FNode.task (erasePos nd) = FNode.task nd := by
  cases nd; simp

@[simp] theorem erase_size (nd : FNode R) : FNode.size (erasePos nd) = FNode.size nd := by
  cases nd; simp

@[simp] theorem erase_complexity (nd : FNode R) :
    FNode.complexity (erasePos nd) = FNode.complexity nd := by
  cases nd; simp

theorem erase_children (nd : FNode R) :
    FNode.children (erasePos nd) = eraseList (FNode.children nd) := by
  cases nd; simp

theorem eraseList_map_depth (l : List (FNode R)) :
    (eraseList l).map FNode.depth = l.map FNode.depth := by
  induction l with
  | nil => simp
  | cons c cs ih => simp [ih]

theorem eraseList_map_task (l : List (FNode R)) :
    (eraseList l).map FNode.task = l.map FNode.task := by
  induction l with
  | nil => simp
  | cons c cs ih => simp [ih]

theorem layoutNode_position (tr : Trig R) (p : Vec3 R) (nd : FNode R) :
    FNode.position (layoutNode tr p nd) = p := by
  cases nd; simp

theorem layoutNode_depth (tr : Trig R) (p : Vec3 R) (nd : FNode R) :
    FNode.depth (layoutNode tr p nd) = FNode.depth nd := by
  cases nd; simp

theorem layoutChildren_length (tr : Trig R) (p : Vec3 R) (n : Nat)
    (l : List (FNode R)) : ∀ i, (layoutChildren tr p n i l).length = l.length := by
  induction l with
  | nil => simp
  | cons c cs ih => intro i; simp [ih]

theorem layoutChildren_getElem? (tr : Trig R) (p : Vec3 R) (n : Nat)
    (l : List (FNode R)) :
    ∀ i j, (layoutChildren tr p n i l)[j]? =
      (l[j]?).map (fun c => layoutNode tr (childPos tr p n (i + j)) c) := by
  induction l with
  | nil => simp
  | cons c cs ih =>
    intro i j
    cases j with
    | zero =>
      simp only [layoutChildren_cons, List.getElem?_cons_zero, Option.map_some',
        Nat.add_zero]
    | succ j =>
      simp only [layoutChildren_cons, List.getElem?_cons_succ]
      rw [ih (i + 1) j]
      have h : i + 1 + j = i + (j + 1) := by omega
      rw [h]

theorem erase_layout (tr : Trig R) :
    ∀ nd : FNode R, ∀ p, erasePos (layoutNode tr p nd) = erasePos nd := by
  refine recFNode (fun nd => ∀ p, erasePos (layoutNode tr p nd) = erasePos nd)
    (fun l => ∀ p n i, eraseList (layoutChildren tr p n i l) = eraseList l) ?_ ?_ ?_
  · intro t d cs p sz cx hL q
    simp [hL]
  · intro p n i
    simp
  · intro c cs hc hcs p n i
    simp [hc, hcs]

theorem eraseList_layoutChildren (tr : Trig R) (l : List (FNode R)) (p : Vec3 R)
    (n i : Nat) : eraseList (layoutChildren tr p n i l) = eraseList l := by
  induction l generalizing i with
  | nil => simp
  | cons c cs ih => simp [erase_layout, ih]

theorem nodes_erase :
    ∀ nd : FNode R, nodes (erasePos nd) = (nodes nd).map erasePos := by
  refine recFNode (fun nd => nodes (erasePos nd) = (nodes nd).map erasePos)
    (fun l => nodesList (eraseList l) = (nodesList l).map erasePos) ?_ ?_ ?_
  · intro t d cs p sz cx hL
    simp [hL]
  · simp
  · intro c cs hc hcs
    simp [hc, hcs]

theorem nodes_map_erase_layout (tr : Trig R) (p : Vec3 R) (nd : FNode R) :
    (nodes (layoutNode tr p nd)).map erasePos = (nodes nd).map erasePos := by
  calc (nodes (layoutNode tr p nd)).map erasePos
      = nodes (erasePos (layoutNode tr p nd)) := (nodes_erase _).symm
    _ = nodes (erasePos nd) := by rw [erase_layout]
    _ = (nodes nd).map erasePos := nodes_erase _

theorem erase_setPos (nd : FNode R) (p : Vec3 R) : erasePos (setPos nd p) = erasePos nd := by
  cases nd; simp [setPos]

theorem nodes_map_erase_setPos (nd : FNode R) (p : Vec3 R) :
    (nodes (setPos nd p)).map erasePos = (nodes nd).map erasePos := by
  calc (nodes (setPos nd p)).map erasePos
      = nodes (erasePos (setPos nd p)) := (nodes_erase _).symm
    _ = nodes (erasePos nd) := by rw [erase_setPos]
    _ = (nodes nd).map erasePos := nodes_erase _

theorem self_mem_nodes (nd : FNode R) : nd ∈ nodes nd := by
  cases nd; simp

theorem nodesList_append (l₁ l₂ : List (FNode R)) :
    nodesList (l₁ ++ l₂) = nodesList l₁ ++ nodesList l₂ := by
  induction l₁ with
  | nil => simp
  | cons c cs ih => simp [ih]

theorem mem_nodesList_of_mem {c x : FNode R} {l : List (FNode R)}
    (hc : c ∈ l) (hx : x ∈ nodes c) : x ∈ nodesList l := by
  induction l with
  | nil => cases hc
  | cons d ds ih =>
    rcases List.mem_cons.mp hc with h | h
    · subst h; simp [List.mem_append]; exact Or.inl hx
    · simp [List.mem_append]; exact Or.inr (ih h)

/-! ### Bounds of the two complexity scores -/

theorem analyzeComplexity_def (i ti : String) (de st pa : Option String)
    (subs : Option (List Task)) (deps : Option (List String)) (cx : ℚ) (cr : String) :
    analyzeComplexity (Task.mk i ti de st pa subs deps cx cr) =
      min 10 (1 +
        (match de with
          | some d => if d.isEmpty then 0 else analyzeTextComplexity d
          | none => 0) +
        (match subs with
          | some l => (l.length : ℚ) + analyzeSubtasks l
          | none => 0) +
        (match deps with
          | some l => (l.length : ℚ) * 0.5
          | none => 0)) := by
  rcases de with _ | d <;> rcases subs with _ | l <;> rcases deps with _ | m <;>
    simp [analyzeComplexity]

theorem analyzeTextComplexity_nonneg (d : String) : 0 ≤ analyzeTextComplexity d := by
  unfold analyzeTextComplexity
  refine le_min (by norm_num) ?_
  positivity

theorem one_le_min_ten (a b c : ℚ) (ha : 0 ≤ a) (hb : 0 ≤ b) (hc : 0 ≤ c) :
    1 ≤ min 10 (1 + a + b + c) :=
  le_min (by norm_num) (by linarith)

theorem descScore_nonneg (de : Option String) :
    (0 : ℚ) ≤
      (match de with
        | some d => if d.isEmpty then 0 else analyzeTextComplexity d
        | none => 0) := by
  rcases de with _ | d
  · exact le_refl 0
  · show (0 : ℚ) ≤ if d.isEmpty then 0 else analyzeTextComplexity d
    split
    · exact le_refl 0
    · exact analyzeTextComplexity_nonneg d

theorem depScore_nonneg (dep : Option (List String)) :
    (0 : ℚ) ≤
      (match dep with
        | some m => ((m.length : ℚ)) * 0.5
        | none => 0) := by
  rcases dep with _ | m
  · exact le_refl 0
  · show (0 : ℚ) ≤ (m.length : ℚ) * 0.5
    positivity

mutual

theorem analyze_bounds : ∀ t : Task, 1 ≤ analyzeComplexity t ∧ analyzeComplexity t ≤ 10
  | .mk i ti de st pa none dep cx cr => by
    rw [analyzeComplexity_def]
    exact ⟨one_le_min_ten _ _ _ (descScore_nonneg de) (le_refl 0) (depScore_nonneg dep),
      min_le_left _ _⟩
  | .mk i ti de st pa (some l) dep cx cr => by
    have hs := analyzeSubtasks_nonneg l
    rw [analyzeComplexity_def]
    refine ⟨one_le_min_ten _ _ _ (descScore_nonneg de) ?_ (depScore_nonneg dep),
      min_le_left _ _⟩
    have hlen : (0 : ℚ) ≤ (l.length : ℚ) := by positivity
    exact add_nonneg hlen hs

theorem analyzeSubtasks_nonneg : ∀ l : List Task, 0 ≤ analyzeSubtasks l
  | [] => by simp
  | s :: ss => by
    have h1 := (analyze_bounds s).1
    have h2 := analyzeSubtasks_nonneg ss
    simp only [analyzeSubtasks_cons]
    nlinarith

end

theorem calculateComplexity_bounds (t : Task) :
    1 ≤ calculateComplexity t ∧ calculateComplexity t ≤ 10 := by
  cases t with
  | mk i ti de st pa subs dep cx cr =>
    simp only [calculateComplexity]
    constructor
    · refine le_min (by norm_num) ?_
      have hde : (0 : ℚ) ≤
          (match de with
            | some d => if d.isEmpty then 0 else min 5 ((d.length : ℚ) / 100)
            | none => 0) := by
        rcases de with _ | d
        · simp
        · simp only
          split
          · norm_num
          · refine le_min (by norm_num) (by positivity)
      have hsub : (0 : ℚ) ≤
          (match subs with
            | some l => ((l.length : ℚ))
            | none => 0) := by
        rcases subs with _ | l
        · simp
        · simp only
          positivity
      linarith
    · exact min_le_left _ _

/-- C1: for every task, however deep and wide, both `calculateComplexity`
(the `FractalNode` per-node score) and `_analyzeComplexity` (the advisor's
recursive score) return a value in [1, 10]; the lower bound holds although
the source only clamps from above, because the base is 1 and every
contribution (description length, subtask count, recursive child scores,
dependency count) is non-negative. -/
theorem claim1_complexity_in_range (t : Task) :
    (1 ≤ calculateComplexity t ∧ calculateComplexity t ≤ 10) ∧
    (1 ≤ analyzeComplexity t ∧ analyzeComplexity t ≤ 10) :=
  ⟨calculateComplexity_bounds t, analyze_bounds t⟩

/-! ### Concrete inputs for witnesses -/

/-- A concrete interpretation of the trig interface over `ℚ`, used only to
instantiate universally quantified layout theorems at a computable point. -/
def trQ : Trig ℚ := { pi := 314159 / 100000, cos := fun _ => 1, sin := fun _ => 0 }

/-- A task with no description, no subtasks and no dependencies. -/
def demoTask : Task := Task.mk "t1" "Root task" none none none none none 1 ""

/-- A leaf node over that task. -/
def demoLeaf : FNode ℚ := FNode.mk demoTask 0 [] (Vec3.mk 0 0 0) 1 1

def demoChild : FNode ℚ := FNode.mk demoTask 1 [] (Vec3.mk 0 0 0) 1 1

def demoParent : FNode ℚ := FNode.mk demoTask 0 [demoChild] (Vec3.mk 0 0 0) 1 1

def demoDeepChild : FNode ℚ := FNode.mk demoTask 5 [] (Vec3.mk 0 0 0) 1 1

def demoDeepParent : FNode ℚ := FNode.mk demoTask 4 [demoDeepChild] (Vec3.mk 0 0 0) 1 1

/-- A second algorithm state sharing only `maxDepth` with `Alg.new`. -/
def demoAlg : Alg ℚ := { maxDepth := 5, minTaskSize := 0, spreadFactor := 0, root := some demoLeaf }

/-! ### C8: relayout of a node with no children -/

/-- C8: `updateLayout` on a node with zero children is a no-op, not a
fault: the node (hence every position in its subtree) is returned
unchanged; the `2 * Math.PI / 0` the source computes is never used. -/
theorem claim8_relayout_noop (tr : Trig R) (nd : FNode R)
    (h : FNode.children nd = []) : updateLayout tr nd = nd := by
  cases nd with
  | mk t d cs p sz cx =>
    simp only [FNode.children_mk] at h
    subst h
    simp [updateLayout]

/-- Witness for C8 at a concrete leaf node. -/
theorem claim8_witness : updateLayout trQ demoLeaf = demoLeaf :=
  claim8_relayout_noop trQ demoLeaf rfl

/-! ### C7: determinism and idempotence of createFractalTree -/

/-- C7: `createFractalTree` is deterministic and idempotent: the returned
tree is a pure function of the task and the configured `maxDepth` (the rest
of the instance state, including any previously stored root, is
irrelevant), so equal inputs give equal trees and a second call on the
state left by the first returns the same tree. -/
theorem claim7_deterministic (tr : Trig R) (a₁ a₂ : Alg R) (t : Task)
    (h : a₁.maxDepth = a₂.maxDepth) :
    (createFractalTree tr a₁ t).2 = (createFractalTree tr a₂ t).2 ∧
    (createFractalTree tr ((createFractalTree tr a₁ t).1) t).2 =
      (createFractalTree tr a₁ t).2 := by
  constructor
  · simp [createFractalTree, h]
  · simp [createFractalTree]

/-- Witness for C7: two states agreeing only on `maxDepth`. -/
theorem claim7_witness :
    (createFractalTree trQ Alg.new demoTask).2 = (createFractalTree trQ demoAlg demoTask).2 ∧
    (createFractalTree trQ ((createFractalTree trQ Alg.new demoTask).1) demoTask).2 =
      (createFractalTree trQ Alg.new demoTask).2 :=
  claim7_deterministic trQ Alg.new demoAlg demoTask rfl

/-! ### C2: the circular layout rule -/

/-- C2: after `updateLayout`, child `i` (0-based, source order) of a node
with `n ≥ 1` children sits at
`(x + cos(i·2π/n)·r, y − 0.5, z + sin(i·2π/n)·r)` relative to the parent,
with `r = max(0.5, n·0.2)`: the `(x,z)` offsets lie on the ring of that
radius with angular spacing `2π/n`. -/
theorem claim2_circular_layout (tr : Trig R) (m : FNode R) (i : Nat)
    (h : i < (FNode.children m).length) :
    ((FNode.children (updateLayout tr m))[i]?).map FNode.position =
      some (Vec3.mk
        ((FNode.position m).x +
          tr.cos ((2 * tr.pi / (((FNode.children m).length : Nat) : R)) * (i : R)) *
            max (1 / 2) ((((FNode.children m).length : Nat) : R) * (1 / 5)))
        ((FNode.position m).y - 1 / 2)
        ((FNode.position m).z +
          tr.sin ((2 * tr.pi / (((FNode.children m).length : Nat) : R)) * (i : R)) *
            max (1 / 2) ((((FNode.children m).length : Nat) : R) * (1 / 5)))) := by
  cases m with
  | mk t d cs p sz cx =>
    simp only [FNode.children_mk, FNode.position_mk] at h ⊢
    simp only [updateLayout, FNode.position_mk, layoutNode_mk, FNode.children_mk]
    rw [layoutChildren_getElem?, List.getElem?_eq_getElem h]
    simp [layoutNode_position, childPos, ringAngle, ringRadius]

/-- Witness for C2: the single child of a two-node tree. -/
theorem claim2_witness :
    ((FNode.children (updateLayout trQ demoParent))[0]?).map FNode.position =
      some (Vec3.mk
        ((FNode.position demoParent).x +
          trQ.cos ((2 * trQ.pi / (((FNode.children demoParent).length : Nat) : ℚ)) * ((0 : Nat) : ℚ)) *
            max (1 / 2) ((((FNode.children demoParent).length : Nat) : ℚ) * (1 / 5)))
        ((FNode.position demoParent).y - 1 / 2)
        ((FNode.position demoParent).z +
          trQ.sin ((2 * trQ.pi / (((FNode.children demoParent).length : Nat) : ℚ)) * ((0 : Nat) : ℚ)) *
            max (1 / 2) ((((FNode.children demoParent).length : Nat) : ℚ) * (1 / 5)))) :=
  claim2_circular_layout trQ demoParent 0 (by decide)

/-! ### C10: connections to depth-maxDepth children -/

theorem mem_connsFor (tr : Trig R) (a : Alg R) (parent c : FNode R) :
    ∀ l : List (FNode R), c ∈ l →
      Conn.mk (FNode.position parent) (FNode.position c)
          (calculateConnectionStrength a parent c) ∈ connsFor tr a parent l := by
  intro l hl
  induction l with
  | nil => cases hl
  | cons d ds ih =>
    rcases List.mem_cons.mp hl with h | h
    · subst h
      simp
    · simp only [connsFor_cons, List.mem_cons, List.mem_append]
      exact Or.inr (Or.inr (ih h))

/-- C10: with the default `maxDepth = 5`, the connection emitted for an
edge whose child sits at depth 5 has strength exactly 0.2, regardless of
either node's complexity: the depth factor `1 − 5/5` vanishes, so the lower
clamp always binds. -/
theorem claim10_deep_connection_strength (tr : Trig R) (a : Alg R) (m c : FNode R)
    (h5 : a.maxDepth = 5) (hc : c ∈ FNode.children m) (hd : FNode.depth c = 5) :
    calculateConnectionStrength a m c = 1 / 5 ∧
    Conn.mk (FNode.position m) (FNode.position c) (1 / 5) ∈ calcConns tr a m := by
  have hs : calculateConnectionStrength a m c = 1 / 5 := by
    simp only [calculateConnectionStrength, h5, hd]
    norm_num
  refine ⟨hs, ?_⟩
  have hm := mem_connsFor tr a m c (FNode.children m) hc
  rw [hs] at hm
  cases m with
  | mk t d cs p sz cx =>
    simpa [calcConns_mk] using hm

/-- Witness for C10 at a concrete depth-4 parent and depth-5 child. -/
theorem claim10_witness :
    calculateConnectionStrength Alg.new demoDeepParent demoDeepChild = 1 / 5 ∧
    Conn.mk (FNode.position demoDeepParent) (FNode.position demoDeepChild) (1 / 5) ∈
      calcConns trQ Alg.new demoDeepParent :=
  claim10_deep_connection_strength trQ Alg.new demoDeepParent demoDeepChild rfl
    (List.mem_singleton.mpr rfl) rfl

/-! ### C4: status colors. The claim as frozen says an unknown status falls
back to the Not-Started gray; the source falls back only on a falsy status
(`node.task.status || 'Not Started'`), and on an unknown non-empty status
the palette lookup yields `undefined`, whose `.r` access faults — modelled
by `calculateColor` returning `none`. -/

/-- A task whose status is a non-empty string outside the palette. -/
def unknownTask : Task := Task.mk "t2" "Odd" none (some "Cancelled") none none none 1 ""

def unknownNode : FNode ℚ := FNode.mk unknownTask 0 [] (Vec3.mk 0 0 0) 1 1

/-- Counterexample to C4 as stated: at the status `"Cancelled"` the source
produces no color at all (the lookup is `undefined` and reading `.r`
throws), not the gray fallback the claim predicts. -/
theorem claim4_color_counterexample :
    calculateColor unknownNode = none ∧
    calculateColor unknownNode ≠
      some (scaleColor (128, 128, 128) (1 / 2 + FNode.complexity unknownNode / 20)) := by
  constructor
  · rfl
  · decide

/-- C4 amended: the color is the palette entry for the status scaled by
`intensity = 0.5 + complexity/20` and clamped at 255 per channel, where a
missing or empty (falsy) status falls back to the Not-Started gray; for a
non-empty status outside the 4-entry palette no color is produced (the
source faults there). -/
theorem claim4_color_amended (nd : FNode R) :
    (Task.status (FNode.task nd) = none →
      calculateColor nd = some (scaleColor (128, 128, 128) (1 / 2 + FNode.complexity nd / 20))) ∧
    (Task.status (FNode.task nd) = some "" →
      calculateColor nd = some (scaleColor (128, 128, 128) (1 / 2 + FNode.complexity nd / 20))) ∧
    (Task.status (FNode.task nd) = some "Not Started" →
      calculateColor nd = some (scaleColor (128, 128, 128) (1 / 2 + FNode.complexity nd / 20))) ∧
    (Task.status (FNode.task nd) = some "In Progress" →
      calculateColor nd = some (scaleColor (79, 70, 229) (1 / 2 + FNode.complexity nd / 20))) ∧
    (Task.status (FNode.task nd) = some "Completed" →
      calculateColor nd = some (scaleColor (34, 197, 94) (1 / 2 + FNode.complexity nd / 20))) ∧
    (Task.status (FNode.task nd) = some "Blocked" →
      calculateColor nd = some (scaleColor (239, 68, 68) (1 / 2 + FNode.complexity nd / 20))) ∧
    (∀ s : String, Task.status (FNode.task nd) = some s → s ≠ "" →
      s ≠ "Not Started" → s ≠ "In Progress" → s ≠ "Completed" → s ≠ "Blocked" →
      calculateColor nd = none) := by
  have key : ∀ b : ℚ × ℚ × ℚ, baseColorFor (statusKey (FNode.task nd)) = some b →
      calculateColor nd = some (scaleColor b (1 / 2 + FNode.complexity nd / 20)) := by
    intro b hb
    unfold calculateColor
    rw [hb]
  have keyNone : baseColorFor (statusKey (FNode.task nd)) = none →
      calculateColor nd = none := by
    intro hb
    unfold calculateColor
    rw [hb]
  have skSome : ∀ s : String, Task.status (FNode.task nd) = some s →
      statusKey (FNode.task nd) = if s.isEmpty then "Not Started" else s := by
    intro s h
    unfold statusKey
    rw [h]
  refine ⟨?_, ?_, ?_, ?_, ?_, ?_, ?_⟩
  · intro h
    refine key _ ?_
    unfold statusKey
    rw [h]
    decide
  · intro h
    refine key _ ?_
    rw [skSome _ h]
    decide
  · intro h
    refine key _ ?_
    rw [skSome _ h]
    decide
  · intro h
    refine key _ ?_
    rw [skSome _ h]
    decide
  · intro h
    refine key _ ?_
    rw [skSome _ h]
    decide
  · intro h
    refine key _ ?_
    rw [skSome _ h]
    decide
  · intro s h hne h1 h2 h3 h4
    refine keyNone ?_
    rw [skSome _ h]
    have hemp : s.isEmpty = false := by
      rcases hs : s.isEmpty with _ | _
      · rfl
      · exact absurd ((String.isEmpty_iff s).mp hs) hne
    rw [hemp]
    show baseColorFor (if false = true then "Not Started" else s) = none
    rw [if_neg (by simp)]
    unfold baseColorFor
    rw [if_neg h1, if_neg h2, if_neg h3, if_neg h4]

/-- A Blocked task of complexity 10, the spec's own example: intensity 1,
color (239, 68, 68). -/
def blockedTask : Task := Task.mk "t3" "B" none (some "Blocked") none none none 10 ""

def blockedNode : FNode ℚ := FNode.mk blockedTask 0 [] (Vec3.mk 0 0 0) 1 10

/-- Witness for the amended C4 at the Blocked example node. -/
theorem claim4_witness :
    calculateColor blockedNode =
      some (scaleColor (239, 68, 68) (1 / 2 + FNode.complexity blockedNode / 20)) :=
  (claim4_color_amended blockedNode).2.2.2.2.2.1 rfl

/-! ### C5 and C6: suggestDecomposition -/

theorem suggest_core (g : Gen) (t : Task)
    (h : (identifyPatterns t).contains "core-components" = true) :
    suggestDecomposition g t =
      [createSubtask g 0 t "Research & Planning" 0.2,
       createSubtask g 1 t "Core Implementation" 0.4,
       createSubtask g 2 t "Testing & Validation" 0.2,
       createSubtask g 3 t "Documentation" 0.2] := by
  simp only [suggestDecomposition]
  rw [if_pos h]

theorem suggest_feature (g : Gen) (t : Task)
    (h1 : (identifyPatterns t).contains "core-components" = false)
    (h2 : (identifyPatterns t).contains "feature-breakdown" = true) :
    suggestDecomposition g t =
      (extractFeatures ((Task.description t).getD "")).enum.map
        (fun p => createSubtask g p.1 t p.2
          (1 / ((extractFeatures ((Task.description t).getD "")).length : ℚ))) := by
  simp only [suggestDecomposition]
  rw [if_neg (by rw [h1]; simp), if_pos h2]

theorem suggest_default (g : Gen) (t : Task)
    (h1 : (identifyPatterns t).contains "core-components" = false)
    (h2 : (identifyPatterns t).contains "feature-breakdown" = false) :
    suggestDecomposition g t =
      (List.range (defaultCount (analyzeComplexity t))).map
        (fun i => createSubtask g i t ("Phase " ++ toString (i + 1))
          (1 / ((defaultCount (analyzeComplexity t)) : ℚ))) := by
  simp only [suggestDecomposition]
  rw [if_neg (by rw [h1]; simp), if_neg (by rw [h2]; simp)]

theorem extractFeatures_length_pos (d : String) : 0 < (extractFeatures d).length := by
  simp only [extractFeatures]
  split
  · simp
  · next h =>
    refine List.length_pos.mpr ?_
    intro hnil
    exact h (by rw [hnil]; rfl)

theorem defaultCount_ge_two (c : ℚ) : 2 ≤ defaultCount c := by
  unfold defaultCount
  have h := le_max_left (2 : ℤ) (min 5 (Int.ceil (c / 2)))
  omega

theorem map_const_eq_replicate {α β : Type} (l : List α) (b : β) :
    l.map (fun _ => b) = List.replicate l.length b := by
  induction l with
  | nil => simp
  | cons a l ih => simp [ih, List.replicate_succ]

theorem sum_map_mul (c : ℚ) (l : List ℚ) : (l.map (fun w => c * w)).sum = c * l.sum := by
  induction l with
  | nil => simp
  | cons a l ih => simp [ih, mul_add]

theorem sum_replicate_q (n : Nat) (x : ℚ) : (List.replicate n x).sum = (n : ℚ) * x := by
  induction n with
  | zero => simp
  | succ n ih =>
    simp only [List.replicate_succ, List.sum_cons, ih]
    push_cast
    ring

/-- The weight each branch of `suggestDecomposition` passes to
`_createSubtask`, in emission order: 0.2/0.4/0.2/0.2 for core-components,
`1/count` per extracted feature, `1/numSubtasks` per default phase. -/
def suggestWeights (t : Task) : List ℚ :=
  if (identifyPatterns t).contains "core-components" then [0.2, 0.4, 0.2, 0.2]
  else if (identifyPatterns t).contains "feature-breakdown" then
    List.replicate (extractFeatures ((Task.description t).getD "")).length
      (1 / ((extractFeatures ((Task.description t).getD "")).length : ℚ))
  else
    List.replicate (defaultCount (analyzeComplexity t))
      (1 / ((defaultCount (analyzeComplexity t)) : ℚ))

/-- C5: every stub emitted by `suggestDecomposition` has complexity
`parent.complexity × weight`, the branch's weights sum to 1 (0.2+0.4+0.2+0.2;
k × 1/k; n × 1/n), and consequently the stub complexities sum exactly to
`parent.complexity` (exact in ℚ; the source's floats make it hold within
tolerance). -/
theorem claim5_weights_sum (g : Gen) (t : Task) :
    (suggestDecomposition g t).map Task.complexity =
      (suggestWeights t).map (fun w => Task.complexity t * w) ∧
    (suggestWeights t).sum = 1 ∧
    ((suggestDecomposition g t).map Task.complexity).sum = Task.complexity t := by
  have third : ∀ ws : List ℚ,
      (suggestDecomposition g t).map Task.complexity = ws.map (fun w => Task.complexity t * w) →
      ws.sum = 1 →
      ((suggestDecomposition g t).map Task.complexity).sum = Task.complexity t := by
    intro ws h1 h2
    rw [h1, sum_map_mul, h2, mul_one]
  by_cases hcore : (identifyPatterns t).contains "core-components" = true
  · have hs := suggest_core g t hcore
    have hw : suggestWeights t = [0.2, 0.4, 0.2, 0.2] := by
      simp only [suggestWeights]
      rw [if_pos hcore]
    have h1 : (suggestDecomposition g t).map Task.complexity =
        (suggestWeights t).map (fun w => Task.complexity t * w) := by
      rw [hs, hw]
      simp [createSubtask]
    have h2 : (suggestWeights t).sum = 1 := by
      rw [hw]
      norm_num
    exact ⟨h1, h2, third _ h1 h2⟩
  · have hcoreF : (identifyPatterns t).contains "core-components" = false := by
      simpa using hcore
    by_cases hfb : (identifyPatterns t).contains "feature-breakdown" = true
    · have hs := suggest_feature g t hcoreF hfb
      have hlen := extractFeatures_length_pos ((Task.description t).getD "")
      have hne : ((extractFeatures ((Task.description t).getD "")).length : ℚ) ≠ 0 := by
        exact_mod_cast Nat.pos_iff_ne_zero.mp hlen
      have hw : suggestWeights t =
          List.replicate (extractFeatures ((Task.description t).getD "")).length
            (1 / ((extractFeatures ((Task.description t).getD "")).length : ℚ)) := by
        simp only [suggestWeights]
        rw [if_neg (by rw [hcoreF]; simp), if_pos hfb]
      have h1 : (suggestDecomposition g t).map Task.complexity =
          (suggestWeights t).map (fun w => Task.complexity t * w) := by
        rw [hs, hw, List.map_map, List.map_replicate]
        have : (Task.complexity ∘ fun p : Nat × String => createSubtask g p.1 t p.2
            (1 / ((extractFeatures ((Task.description t).getD "")).length : ℚ))) =
            fun _ => Task.complexity t *
              (1 / ((extractFeatures ((Task.description t).getD "")).length : ℚ)) := by
          funext p
          simp [createSubtask]
        rw [this, map_const_eq_replicate, List.enum_length]
      have h2 : (suggestWeights t).sum = 1 := by
        rw [hw, sum_replicate_q]
        field_simp
      exact ⟨h1, h2, third _ h1 h2⟩
    · have hfbF : (identifyPatterns t).contains "feature-breakdown" = false := by
        simpa using hfb
      have hs := suggest_default g t hcoreF hfbF
      have hlen := defaultCount_ge_two (analyzeComplexity t)
      have hne : ((defaultCount (analyzeComplexity t)) : ℚ) ≠ 0 := by
        have : defaultCount (analyzeComplexity t) ≠ 0 := by omega
        exact_mod_cast this
      have hw : suggestWeights t =
          List.replicate (defaultCount (analyzeComplexity t))
            (1 / ((defaultCount (analyzeComplexity t)) : ℚ)) := by
        simp only [suggestWeights]
        rw [if_neg (by rw [hcoreF]; simp), if_neg (by rw [hfbF]; simp)]
      have h1 : (suggestDecomposition g t).map Task.complexity =
          (suggestWeights t).map (fun w => Task.complexity t * w) := by
        rw [hs, hw, List.map_map, List.map_replicate]
        have : (Task.complexity ∘ fun i : Nat => createSubtask g i t
            ("Phase " ++ toString (i + 1))
            (1 / ((defaultCount (analyzeComplexity t)) : ℚ))) =
            fun _ => Task.complexity t *
              (1 / ((defaultCount (analyzeComplexity t)) : ℚ)) := by
          funext i
          simp [createSubtask]
        rw [this, map_const_eq_replicate, List.length_range]
      have h2 : (suggestWeights t).sum = 1 := by
        rw [hw, sum_replicate_q]
        field_simp
      exact ⟨h1, h2, third _ h1 h2⟩

/-- C6: a description containing `implement`, `develop` or `create`
(case-insensitively) always takes the core-components branch — exactly the
four fixed-title stubs with weights 0.2/0.4/0.2/0.2 — even if the
feature-breakdown triggers also match, because `core-components` is checked
first; a task matching only the optimization triggers (`improve`/`optimize`)
falls through to the default Phase-N branch. -/
theorem claim6_strategy_precedence (g : Gen) (t : Task) :
    ((strIncludes (descLower t) "implement" || strIncludes (descLower t) "develop" ||
        strIncludes (descLower t) "create") = true →
      suggestDecomposition g t =
        [createSubtask g 0 t "Research & Planning" 0.2,
         createSubtask g 1 t "Core Implementation" 0.4,
         createSubtask g 2 t "Testing & Validation" 0.2,
         createSubtask g 3 t "Documentation" 0.2]) ∧
    ((strIncludes (descLower t) "improve" || strIncludes (descLower t) "optimize") = true →
      strIncludes (descLower t) "implement" = false →
      strIncludes (descLower t) "develop" = false →
      strIncludes (descLower t) "create" = false →
      strIncludes (descLower t) "feature" = false →
      strIncludes (descLower t) "functionality" = false →
      suggestDecomposition g t =
        (List.range (defaultCount (analyzeComplexity t))).map
          (fun i => createSubtask g i t ("Phase " ++ toString (i + 1))
            (1 / ((defaultCount (analyzeComplexity t)) : ℚ)))) := by
  constructor
  · intro h
    refine suggest_core g t ?_
    simp only [identifyPatterns]
    rw [if_pos h]
    simp
  · intro _ h1 h2 h3 h4 h5
    have hcore : (identifyPatterns t).contains "core-components" = false := by
      simp only [identifyPatterns]
      rw [if_neg (by simp [h1, h2, h3]), if_neg (by simp [h4, h5])]
      simp only [List.nil_append]
      split
      · decide
      · decide
    have hfb : (identifyPatterns t).contains "feature-breakdown" = false := by
      simp only [identifyPatterns]
      rw [if_neg (by simp [h1, h2, h3]), if_neg (by simp [h4, h5])]
      simp only [List.nil_append]
      split
      · decide
      · decide
    exact suggest_default g t hcore hfb

/-- A task matching the core-components triggers (and `feature` too, to
exercise the precedence). -/
def coreTask : Task :=
  Task.mk "c1" "Build login"
    (some "Implement the login form feature and create the session API") none none
    none none 4 ""

/-- A task matching only the optimization triggers. -/
def optTask : Task := Task.mk "c2" "Perf" (some "optimize the query layer") none none none none 1 ""

/-- A concrete id/timestamp environment. -/
def demoGen : Gen := { newId := fun k => toString k, newCreated := fun _ => "now" }

/-- Witness for C6: the core branch at a description that also matches
`feature`, and the default branch at an optimization-only description. -/
theorem claim6_witness :
    suggestDecomposition demoGen coreTask =
      [createSubtask demoGen 0 coreTask "Research & Planning" 0.2,
       createSubtask demoGen 1 coreTask "Core Implementation" 0.4,
       createSubtask demoGen 2 coreTask "Testing & Validation" 0.2,
       createSubtask demoGen 3 coreTask "Documentation" 0.2] ∧
    suggestDecomposition demoGen optTask =
      (List.range (defaultCount (analyzeComplexity optTask))).map
        (fun i => createSubtask demoGen i optTask ("Phase " ++ toString (i + 1))
          (1 / ((defaultCount (analyzeComplexity optTask)) : ℚ))) :=
  ⟨(claim6_strategy_precedence demoGen coreTask).1 (by decide),
   (claim6_strategy_precedence demoGen optTask).2 (by decide) (by decide) (by decide)
     (by decide) (by decide) (by decide)⟩

/-! ### C3: depth invariants of the built tree -/

/-- The depth invariant, stated for every node of a tree: children are one
level deeper, no node exceeds `md`, and a node at depth `md` has no
children. -/
def DepthOk (md : Nat) (root : FNode R) : Prop :=
  ∀ x ∈ nodes root,
    (∀ v ∈ (FNode.children x).map FNode.depth, v = FNode.depth x + 1) ∧
    FNode.depth x ≤ md ∧
    (md ≤ FNode.depth x → (FNode.children x).map FNode.depth = [])

theorem depthOk_of_map_erase {md : Nat} {n₁ n₂ : FNode R}
    (h : (nodes n₁).map erasePos = (nodes n₂).map erasePos)
    (h2 : DepthOk md n₂) : DepthOk md n₁ := by
  intro x hx
  have hmem : erasePos x ∈ (nodes n₂).map erasePos := by
    rw [← h]
    exact List.mem_map_of_mem _ hx
  obtain ⟨y, hy, he⟩ := List.mem_map.mp hmem
  have hd : FNode.depth x = FNode.depth y := by
    have := congrArg FNode.depth he
    simpa using this.symm
  have hcd : (FNode.children x).map FNode.depth = (FNode.children y).map FNode.depth := by
    have := congrArg (fun z : FNode R => (FNode.children z).map FNode.depth) he
    simpa [erase_children, eraseList_map_depth] using this.symm
  obtain ⟨c1, c2, c3⟩ := h2 y hy
  refine ⟨?_, ?_, ?_⟩
  · rw [hcd, hd]
    exact c1
  · rw [hd]
    exact c2
  · intro hle
    rw [hcd]
    exact c3 (by rwa [hd] at hle)

theorem depthOk_mkFNode (md : Nat) (t : Task) (d : Nat) (hd : d ≤ md) :
    DepthOk md (mkFNode t d : FNode R) := by
  intro x hx
  simp only [mkFNode, nodes_mk, nodesList_nil, List.mem_singleton] at hx
  subst hx
  exact ⟨by simp, by simpa using hd, by simp⟩

theorem depthOk_push {md : Nat} {t : Task} {d : Nat} {cs : List (FNode R)} {p : Vec3 R}
    {sz cx : ℚ} {c : FNode R}
    (hn : DepthOk md (FNode.mk t d cs p sz cx))
    (hc : DepthOk md c) (hcd : FNode.depth c = d + 1) (hlt : d < md) :
    DepthOk md (pushChild (FNode.mk t d cs p sz cx) c) := by
  intro x hx
  simp only [pushChild, nodes_mk] at hx
  rcases List.mem_cons.mp hx with hx | hx
  · subst hx
    refine ⟨?_, by simp; omega, by simp; omega⟩
    simp only [FNode.children_mk, FNode.depth_mk, List.map_append, List.map_cons, List.map_nil]
    intro v hv
    rcases List.mem_append.mp hv with hv | hv
    · obtain ⟨c1, _, _⟩ := hn _ (self_mem_nodes (FNode.mk t d cs p sz cx))
      have := c1 v (by simpa using hv)
      simpa using this
    · have : v = FNode.depth c := by simpa using hv
      rw [this, hcd]
  · rw [nodesList_append] at hx
    rcases List.mem_append.mp hx with hx | hx
    · refine hn x ?_
      simp only [nodes_mk, List.mem_cons]
      exact Or.inr hx
    · simp only [nodesList_cons, nodesList_nil, List.append_nil] at hx
      exact hc x hx

mutual

theorem buildTree_ok (tr : Trig R) (md : Nat) :
    ∀ (t : Task) (d : Nat),
      FNode.depth (buildTree tr md t d) = d ∧
      (d ≤ md → DepthOk md (buildTree tr md t d))
  | .mk i ti de st pa none dep cx cr, d => by
    rw [buildTree_def]
    by_cases hlt : d < md
    · rw [if_pos hlt]
      exact ⟨by simp [mkFNode], fun hd => depthOk_mkFNode md _ d hd⟩
    · rw [if_neg hlt]
      exact ⟨by simp [mkFNode], fun hd => depthOk_mkFNode md _ d hd⟩
  | .mk i ti de st pa (some l) dep cx cr, d => by
    rw [buildTree_def]
    by_cases hlt : d < md
    · rw [if_pos hlt]
      have h := buildChildren_ok tr md l
        (mkFNode (Task.mk i ti de st pa (some l) dep cx cr) d) d hlt
        (by simp [mkFNode]) (depthOk_mkFNode md _ d (le_of_lt hlt))
      exact ⟨h.1, fun _ => h.2⟩
    · rw [if_neg hlt]
      exact ⟨by simp [mkFNode], fun hd => depthOk_mkFNode md _ d hd⟩

theorem buildChildren_ok (tr : Trig R) (md : Nat) :
    ∀ (l : List Task) (n : FNode R) (d : Nat), d < md → FNode.depth n = d → DepthOk md n →
      FNode.depth (buildChildren tr md n (d + 1) l) = d ∧
      DepthOk md (buildChildren tr md n (d + 1) l)
  | [], n, d => fun _ hd hok => by
    rw [buildChildren_nil]
    exact ⟨hd, hok⟩
  | s :: ss, n, d => fun hlt hd hok => by
    have hs := buildTree_ok tr md s (d + 1)
    have hdep : FNode.depth (buildTree tr md s (d + 1)) = d + 1 := hs.1
    have hsok : DepthOk md (buildTree tr md s (d + 1)) := hs.2 (by omega)
    have hadd_depth : FNode.depth (addChild tr n (buildTree tr md s (d + 1))) = d := by
      cases n with
      | mk t dd cs p sz cx =>
        have hd' : dd = d := by simpa using hd
        simp [addChild, updateLayout, pushChild, layoutNode_depth, hd']
    have hadd_ok : DepthOk md (addChild tr n (buildTree tr md s (d + 1))) := by
      cases n with
      | mk t dd cs p sz cx =>
        have hd' : dd = d := by simpa using hd
        subst hd'
        refine depthOk_of_map_erase ?_ (depthOk_push hok hsok hdep hlt)
        simp only [addChild, updateLayout]
        exact nodes_map_erase_layout tr _ _
    rw [buildChildren_cons]
    exact buildChildren_ok tr md ss _ d hlt hadd_depth hadd_ok

end

theorem createTree_depthOk (tr : Trig R) (a : Alg R) (t : Task) :
    DepthOk a.maxDepth ((createFractalTree tr a t).2) := by
  have hok : DepthOk a.maxDepth (buildTree tr a.maxDepth t 0) :=
    (buildTree_ok tr a.maxDepth t 0).2 (Nat.zero_le _)
  have h1 : DepthOk a.maxDepth (setPos (buildTree tr a.maxDepth t 0) (Vec3.mk 0 2 0)) :=
    depthOk_of_map_erase (nodes_map_erase_setPos _ _) hok
  have h2 : DepthOk a.maxDepth
      (updateLayout tr (setPos (buildTree tr a.maxDepth t 0) (Vec3.mk 0 2 0))) :=
    depthOk_of_map_erase (by simp only [updateLayout]; exact nodes_map_erase_layout tr _ _) h1
  simpa [createFractalTree] using h2

/-- C3: in every tree returned by `createFractalTree`, each child's depth is
its parent's depth + 1, no node's depth exceeds the configured `maxDepth`,
and a node at depth `maxDepth` has no children in the tree (its source
subtasks, still present in `task.subtasks`, are not descended into). -/
theorem claim3_depth_invariants (tr : Trig R) (a : Alg R) (t : Task) (x : FNode R)
    (hx : x ∈ nodes (createFractalTree tr a t).2) :
    (∀ c ∈ FNode.children x, FNode.depth c = FNode.depth x + 1) ∧
    FNode.depth x ≤ a.maxDepth ∧
    (FNode.depth x = a.maxDepth → FNode.children x = []) := by
  obtain ⟨c1, c2, c3⟩ := createTree_depthOk tr a t x hx
  refine ⟨?_, c2, ?_⟩
  · intro c hc
    exact c1 _ (List.mem_map_of_mem _ hc)
  · intro he
    exact List.map_eq_nil_iff.mp (c3 (le_of_eq he.symm))

/-- Witness for C3: the depth bound at the root of a concrete tree. -/
theorem claim3_witness :
    FNode.depth ((createFractalTree trQ (Alg.new : Alg ℚ) demoTask).2) ≤
      (Alg.new : Alg ℚ).maxDepth :=
  (claim3_depth_invariants trQ Alg.new demoTask _ (self_mem_nodes _)).2.1

/-! ### C9: no mutation of the source tasks; stubs are fresh values -/

theorem self_mem_taskClosure (t : Task) : t ∈ taskClosure t := by
  cases t with
  | mk i ti de st pa subs dep cx cr =>
    rw [taskClosure_def]
    exact List.mem_cons_self _ _

theorem taskClosure_sub {s : Task} {l : List Task} (h : s ∈ l) :
    ∀ u ∈ taskClosure s, u ∈ closureList l := by
  induction l with
  | nil => cases h
  | cons a as ih =>
    intro u hu
    rw [closureList_cons]
    rcases List.mem_cons.mp h with h | h
    · subst h
      exact List.mem_append.mpr (Or.inl hu)
    · exact List.mem_append.mpr (Or.inr (ih h u hu))

/-- Every node of the tree carries a task satisfying `P`. -/
def NodeTasksIn (P : Task → Prop) (root : FNode R) : Prop :=
  ∀ x ∈ nodes root, P (FNode.task x)

theorem tasksIn_of_map_erase {P : Task → Prop} {n₁ n₂ : FNode R}
    (h : (nodes n₁).map erasePos = (nodes n₂).map erasePos)
    (h2 : NodeTasksIn P n₂) : NodeTasksIn P n₁ := by
  intro x hx
  have hmem : erasePos x ∈ (nodes n₂).map erasePos := by
    rw [← h]
    exact List.mem_map_of_mem _ hx
  obtain ⟨y, hy, he⟩ := List.mem_map.mp hmem
  have ht : FNode.task x = FNode.task y := by
    have := congrArg FNode.task he
    simpa using this.symm
  rw [ht]
  exact h2 y hy

theorem tasksIn_mkFNode (P : Task → Prop) (t : Task) (d : Nat) (h : P t) :
    NodeTasksIn P (mkFNode t d : FNode R) := by
  intro x hx
  simp only [mkFNode, nodes_mk, nodesList_nil, List.mem_singleton] at hx
  subst hx
  simpa using h

theorem tasksIn_push {P : Task → Prop} {t : Task} {d : Nat} {cs : List (FNode R)}
    {p : Vec3 R} {sz cx : ℚ} {c : FNode R}
    (hn : NodeTasksIn P (FNode.mk t d cs p sz cx)) (hc : NodeTasksIn P c) :
    NodeTasksIn P (pushChild (FNode.mk t d cs p sz cx) c) := by
  intro x hx
  simp only [pushChild, nodes_mk] at hx
  rcases List.mem_cons.mp hx with hx | hx
  · subst hx
    have := hn _ (self_mem_nodes (FNode.mk t d cs p sz cx))
    simpa using this
  · rw [nodesList_append] at hx
    rcases List.mem_append.mp hx with hx | hx
    · refine hn x ?_
      simp only [nodes_mk, List.mem_cons]
      exact Or.inr hx
    · simp only [nodesList_cons, nodesList_nil, List.append_nil] at hx
      exact hc x hx

mutual

theorem buildTree_tasks (tr : Trig R) (md : Nat) :
    ∀ (t : Task) (d : Nat),
      NodeTasksIn (fun u => u ∈ taskClosure t) (buildTree tr md t d : FNode R)
  | .mk i ti de st pa none dep cx cr, d => by
    rw [buildTree_def]
    have base : NodeTasksIn (fun u => u ∈ taskClosure (Task.mk i ti de st pa none dep cx cr))
        (mkFNode (Task.mk i ti de st pa none dep cx cr) d : FNode R) :=
      tasksIn_mkFNode _ _ _ (self_mem_taskClosure _)
    by_cases hlt : d < md
    · rw [if_pos hlt]
      exact base
    · rw [if_neg hlt]
      exact base
  | .mk i ti de st pa (some l) dep cx cr, d => by
    rw [buildTree_def]
    by_cases hlt : d < md
    · rw [if_pos hlt]
      refine buildChildren_tasks tr md l _ (d + 1) _ ?_ ?_
      · exact tasksIn_mkFNode _ _ _ (self_mem_taskClosure _)
      · intro s hs u hu
        rw [taskClosure_def]
        exact List.mem_cons.mpr (Or.inr (taskClosure_sub hs u hu))
    · rw [if_neg hlt]
      exact tasksIn_mkFNode _ _ _ (self_mem_taskClosure _)

theorem buildChildren_tasks (tr : Trig R) (md : Nat) :
    ∀ (l : List Task) (n : FNode R) (cd : Nat) (P : Task → Prop),
      NodeTasksIn P n → (∀ s ∈ l, ∀ u ∈ taskClosure s, P u) →
      NodeTasksIn P (buildChildren tr md n cd l)
  | [], n, cd, P => fun hn _ => by
    rw [buildChildren_nil]
    exact hn
  | s :: ss, n, cd, P => fun hn hl => by
    have hsub : NodeTasksIn P (buildTree tr md s cd : FNode R) := by
      intro x hx
      exact hl s (List.mem_cons_self _ _) _ (buildTree_tasks tr md s cd x hx)
    have hadd : NodeTasksIn P (addChild tr n (buildTree tr md s cd)) := by
      cases n with
      | mk t dd cs p sz cx =>
        refine tasksIn_of_map_erase ?_ (tasksIn_push hn hsub)
        simp only [addChild, updateLayout]
        exact nodes_map_erase_layout tr _ _
    rw [buildChildren_cons]
    exact buildChildren_tasks tr md ss _ cd P hadd
      (fun s2 hs2 => hl s2 (List.mem_cons_of_mem _ hs2))

end

/-- C9: neither `createFractalTree` nor `suggestDecomposition` alters the
source tasks. In this pure embedding that reads: every node of the built
tree carries, unchanged, a task of the source task's subtask closure (the
tree shares the very source values, it never rewrites them), and every
value `suggestDecomposition` returns is a freshly constructed stub built by
`_createSubtask` from the parent's fields — never the source task itself
modified. -/
theorem claim9_no_mutation (tr : Trig R) (a : Alg R) (g : Gen) (t : Task) :
    (∀ x ∈ nodes (createFractalTree tr a t).2, FNode.task x ∈ taskClosure t) ∧
    (∀ u ∈ suggestDecomposition g t, ∃ k ti f, u = createSubtask g k t ti f) := by
  constructor
  · have h0 := buildTree_tasks tr a.maxDepth t 0
    have h1 := tasksIn_of_map_erase (nodes_map_erase_setPos _ (Vec3.mk 0 2 0)) h0
    have hmap : (nodes (updateLayout tr (setPos (buildTree tr a.maxDepth t 0)
          (Vec3.mk 0 2 0)))).map erasePos =
        (nodes (setPos (buildTree tr a.maxDepth t 0) (Vec3.mk 0 2 0))).map erasePos := by
      simp only [updateLayout]
      exact nodes_map_erase_layout tr _ _
    have h2 := tasksIn_of_map_erase hmap h1
    intro x hx
    exact h2 x (by simpa [createFractalTree] using hx)
  · intro u hu
    by_cases hcore : (identifyPatterns t).contains "core-components" = true
    · rw [suggest_core g t hcore] at hu
      simp only [List.mem_cons, List.not_mem_nil, or_false] at hu
      rcases hu with h | h | h | h
      · exact ⟨0, _, _, h⟩
      · exact ⟨1, _, _, h⟩
      · exact ⟨2, _, _, h⟩
      · exact ⟨3, _, _, h⟩
    · have hcoreF : (identifyPatterns t).contains "core-components" = false := by
        simpa using hcore
      by_cases hfb : (identifyPatterns t).contains "feature-breakdown" = true
      · rw [suggest_feature g t hcoreF hfb] at hu
        obtain ⟨p, _, hup⟩ := List.mem_map.mp hu
        exact ⟨p.1, p.2, _, hup.symm⟩
      · have hfbF : (identifyPatterns t).contains "feature-breakdown" = false := by
          simpa using hfb
        rw [suggest_default g t hcoreF hfbF] at hu
        obtain ⟨i, _, hui⟩ := List.mem_map.mp hu
        exact ⟨i, _, _, hui.symm⟩

/-- Witness for C9: the root of a concrete tree carries the source task. -/
theorem claim9_witness :
    FNode.task ((createFractalTree trQ (Alg.new : Alg ℚ) demoTask).2) ∈ taskClosure demoTask :=
  (claim9_no_mutation trQ Alg.new demoGen demoTask).1 _ (self_mem_nodes _)

end Roadmap
